import Mathlib

/-!
Verification of the legacy VTK data-file reader core
(`IO/Legacy/vtkDataReader.cxx`).

The reader is shallowly embedded: the byte stream is a `List Char`
(ASCII tokenizer paths) or a `List Nat` (binary payload paths), and each
source routine becomes an executable Lean function that mirrors the C++
control flow.  Stateful in-place mutation of the attribute containers is
made explicit by passing and returning the container state.
-/

namespace VTK

/-- Character stream of the reader (`istream` contents). -/
abbrev S := List Char

/-- Whitespace as recognised by `istream` formatted extraction in the
"C" locale (the reader installs `std::locale::classic` while open). -/
def isWsC (c : Char) : Bool :=
  c = ' ' || c = '\t' || c = '\n' || c = '\x0b' || c = '\x0c' || c = '\r'

/-- `tolower` in the "C" locale, applied bytewise by
`vtkDataReader::LowerCase`. -/
def lowerChar (c : Char) : Char :=
  if 'A' ≤ c ∧ c ≤ 'Z' then Char.ofNat (c.toNat + 32) else c

/-- `vtkDataReader::LowerCase(str, 256)`: lowercase the string in place.
All strings handled by the reader are < 256 bytes (they come from
256-byte buffers), so the length bound never truncates. -/
def lowerStr (s : String) : String := String.mk (s.toList.map lowerChar)

/-- `strncmp(prefixStr, s, strlen(prefixStr)) == 0`: `s` starts with the
given characters.  (When `s` is shorter, its NUL terminator mismatches
the corresponding character, so `strncmp` is nonzero.) -/
def startsWithS (s p : String) : Bool := p.toList.isPrefixOf s.toList

/-- Strip one trailing carriage return, as `vtkDataReader::ReadLine`
does after `getline`. -/
def stripCR (l : List Char) : List Char :=
  match l.getLast? with
  | some c => if c = '\r' then l.dropLast else l
  | none => l

/-- `vtkDataReader::ReadLine(result[256])`: `getline` into a 256-byte
buffer.  At end of input it fails; a line longer than 255 characters is
truncated to its first 255 characters and the remainder of the line is
discarded (`clear(); ignore(...,'\n')`); a trailing `'\r'` is stripped. -/
def readLineP (s : S) : Option String × S :=
  match s with
  | [] => (none, [])
  | _ =>
    let pre := s.takeWhile (fun c => c ≠ '\n')
    (some (String.mk (stripCR (pre.take 255))), (s.drop pre.length).drop 1)

/-- `vtkDataReader::ReadString(result[256])`: formatted extraction
`IS >> result` with `width(256)`: skip whitespace, then read up to 255
non-whitespace characters; fail (at end of input) if no character could
be extracted. -/
def readStringTokP (s : S) : Option String × S :=
  let s1 := s.dropWhile isWsC
  match s1 with
  | [] => (none, [])
  | _ =>
    let tok := (s1.takeWhile (fun c => !isWsC c)).take 255
    (some (String.mk tok), s1.drop tok.length)

/-- Numeric value of a list of decimal digits. -/
def natOfDigits (ds : List Char) : Nat :=
  ds.foldl (fun a c => 10 * a + (c.toNat - '0'.toNat)) 0

/-- `vtkDataReader::Read(int*)` and friends: formatted extraction of one
integer (`IS >> value`): skip whitespace, optional sign, at least one
decimal digit.  (Overflow clamping of `num_get` is not modelled; the
files under consideration stay far below the limits.) -/
def readIntP (s : S) : Option Int × S :=
  let s1 := s.dropWhile isWsC
  let signAndRest : Int × S :=
    match s1 with
    | '+' :: r => (1, r)
    | '-' :: r => (-1, r)
    | _ => (1, s1)
  let sgn := signAndRest.1
  let s2 := signAndRest.2
  let ds := s2.takeWhile (fun c => c.isDigit)
  if ds.isEmpty then (none, s2)
  else (some (sgn * (natOfDigits ds : Int)), s2.drop ds.length)

/-- `atoi` on a token (used for the optional component count of a
SCALARS header): leading whitespace, optional sign, leading digits;
`0` when no digits are present. -/
def atoiM (str : String) : Int := ((readIntP str.toList).1).getD 0

/-- `vtkDataReader::Read(float*)`: formatted extraction of one floating
point number in the "C" locale.  The model only tracks success and the
consumed characters (the numeric value plays no role in the claims that
use this reader). -/
def scanFloatP (s : S) : Option Unit × S :=
  let s1 := s.dropWhile isWsC
  let s2 : S :=
    match s1 with
    | '+' :: r => r
    | '-' :: r => r
    | _ => s1
  let ip := s2.takeWhile (fun c => c.isDigit)
  let s3 := s2.drop ip.length
  let fracAndRest : List Char × S :=
    match s3 with
    | '.' :: r => (r.takeWhile (fun c => c.isDigit), r.drop (r.takeWhile (fun c => c.isDigit)).length)
    | _ => ([], s3)
  let fp := fracAndRest.1
  let s4 := fracAndRest.2
  if ip.isEmpty ∧ fp.isEmpty then (none, s2)
  else
    match s4 with
    | 'e' :: r | 'E' :: r =>
      let r1 : S :=
        match r with
        | '+' :: t => t
        | '-' :: t => t
        | _ => r
      let ed := r1.takeWhile (fun c => c.isDigit)
      if ed.isEmpty then (none, r1) else (some (), r1.drop ed.length)
    | _ => (some (), s4)

/-! ### Percent-hex string decoding (`vtkDataReader::DecodeString`) -/

/-- Value of a hexadecimal digit. -/
def hexVal (c : Char) : Option Nat :=
  if '0' ≤ c ∧ c ≤ '9' then some (c.toNat - '0'.toNat)
  else if 'a' ≤ c ∧ c ≤ 'f' then some (c.toNat - 'a'.toNat + 10)
  else if 'A' ≤ c ∧ c ≤ 'F' then some (c.toNat - 'A'.toNat + 10)
  else none

/-- `sscanf(buffer, "%x", &ch)` on the 4-byte buffer `"0x" c1 c2`:
the longest hexadecimal prefix of `c1 c2` is parsed.  When `c1` is not
a hex digit the conversion fails and the source reads an indeterminate
`ch` (undefined behaviour); that arm is modelled as `0` and is never
relied upon by a theorem. -/
def sscanfHexByte (c1 c2 : Char) : Nat :=
  match hexVal c1 with
  | none => 0
  | some h1 =>
    match hexVal c2 with
    | none => h1
    | some h2 => 16 * h1 + h2

/-- Core loop of `vtkDataReader::DecodeString`.  The source guard is
`cc <= len - 3` over `size_t`, which for `len < 3` underflows and is
always true (`shortIn`); in that case the source reads past the end of
the buffer (undefined behaviour), modelled here by NUL reads and an
immediate stop. -/
def decodeCharsAux : Bool → List Char → List Char
  | _, [] => []
  | shortIn, c :: rest =>
    if c = '%' then
      if 2 ≤ rest.length ∨ shortIn then
        match rest with
        | c1 :: c2 :: r => Char.ofNat (sscanfHexByte c1 c2) :: decodeCharsAux shortIn r
        | [c1] => [Char.ofNat (sscanfHexByte c1 (Char.ofNat 0))]
        | [] => [Char.ofNat (sscanfHexByte (Char.ofNat 0) (Char.ofNat 0))]
      else decodeCharsAux shortIn rest
    else c :: decodeCharsAux shortIn rest

/-- `vtkDataReader::DecodeString(resname, name)` on a character list. -/
def decodeChars (l : List Char) : List Char :=
  decodeCharsAux (decide (l.length < 3)) l

/-- `vtkDataReader::DecodeString` on strings. -/
def decodeString (s : String) : String := String.mk (decodeChars s.toList)

/-- The decoding step as the specification words it: every `'%'` with at
least two following characters consumes those two characters and emits
the byte `sscanf` parses from them as hex; a `'%'` with fewer than two
following characters is dropped; every other byte passes through. -/
def decodeSpec : List Char → List Char
  | [] => []
  | '%' :: c1 :: c2 :: r => Char.ofNat (sscanfHexByte c1 c2) :: decodeSpec r
  | '%' :: rest => decodeSpec rest
  | c :: rest => c :: decodeSpec rest

/-! ### File header (`vtkDataReader::ReadHeader`) -/

/-- The 22-character magic `"# vtk DataFile Version"` required at the
start of the first line (`strncmp` with length 22). -/
def headerMagic : String := "# vtk DataFile Version"

/-- Modelled from the spec: the reader's compiled-in maximum file
version (`vtkLegacyReaderVersion.h`, not under `src/`); its concrete
value is irrelevant to the claims, which only compare against it. -/
def vtkLegacyReaderMajorVersion : Int := 5

/-- Modelled from the spec: compiled-in maximum minor version. -/
def vtkLegacyReaderMinorVersion : Int := 1

/-- `sscanf(line + 22, "%d.%d", &major, &minor) == 2`: a first integer
(whitespace-skipping `%d`), a literal `'.'` immediately after it, and a
second integer. -/
def sscanfTwoInts (cs : List Char) : Option (Int × Int) :=
  match readIntP cs with
  | (none, _) => none
  | (some a, r1) =>
    match r1 with
    | '.' :: r2 =>
      match readIntP r2 with
      | (none, _) => none
      | (some b, _) => some (a, b)
    | _ => none

/-- Failure kinds of `ReadHeader` (the stored `vtkErrorCode`). -/
inductive HeaderErrK
  | prematureEnd
  | unrecognizedFormat
deriving DecidableEq, Repr

/-- Successful result of `ReadHeader`. -/
structure HeaderOk where
  major : Int
  minor : Int
  fileVersion : Int
  binaryMode : Bool
  title : String
  /-- the "Cannot read file version" warning was emitted -/
  parseWarn : Bool
  /-- the "newer file than the reader version" warning was emitted -/
  versionWarn : Bool
deriving DecidableEq, Repr

/-- The `HeaderOk` record `ReadHeader` assembles from the first line
`l1` (version parsing with the 0.0 fallback and the two warnings), the
title line, and the recognised encoding. -/
def headerOkOf (l1 title : String) (bin : Bool) : HeaderOk :=
  let parsed := sscanfTwoInts (l1.toList.drop 22)
  let major := match parsed with | some p => p.1 | none => 0
  let minor := match parsed with | some p => p.2 | none => 0
  ⟨major, minor, 10 * major + minor, bin, title, parsed.isNone,
    decide (major > vtkLegacyReaderMajorVersion ∨
      (major = vtkLegacyReaderMajorVersion ∧
        minor > vtkLegacyReaderMinorVersion))⟩

/-- `vtkDataReader::ReadHeader`: line 1 must carry the magic; the
version is parsed with `sscanf` (on failure: warn and use 0.0); a
version beyond the compiled-in maximum warns only; line 2 is the title;
the third token must start (after lowercasing) with `ascii` or
`binary`.  The re-open of file sources in binary mode only repositions
the stream and is not part of the model. -/
def readHeader (s : S) : Except HeaderErrK HeaderOk :=
  match readLineP s with
  | (none, _) => .error .prematureEnd
  | (some l1, s1) =>
    if ¬ startsWithS l1 headerMagic then .error .unrecognizedFormat
    else
      match readLineP s1 with
      | (none, _) => .error .prematureEnd
      | (some title, s2) =>
        match readStringTokP s2 with
        | (none, _) => .error .prematureEnd
        | (some t3, _) =>
          let lt := lowerStr t3
          if startsWithS lt ("ascii") then .ok (headerOkOf l1 title false)
          else if startsWithS lt ("binary") then .ok (headerOkOf l1 title true)
          else .error .unrecognizedFormat

/-! ### Field arrays and ghost-level conversion -/

/-- Element kind of a parsed array, as far as the ghost conversion needs
to distinguish it (`vtkArrayDownCast<vtkUnsignedCharArray>` succeeds
exactly for the `u8` kind). -/
inductive ArrKind
  | u8
  | i8
  | i16
  | i32
  | f32
  | f64
  | strKind
deriving DecidableEq, Repr

/-- A concrete array as produced by `ReadArray` and named by the field
reader: element kind, component count, and the flat list of (byte)
values. -/
structure FieldArray where
  name : String
  kind : ArrKind
  numComp : Int
  values : List Nat
deriving DecidableEq, Repr

/-- The `FieldType` scope tag passed through the attribute dispatcher. -/
inductive FieldType
  | pointData
  | cellData
  | fieldData
deriving DecidableEq, Repr

/-- Modelled from the spec: `vtkDataSetAttributes::DUPLICATEPOINT`
(the point scope's duplicate ghost marker; header not under `src/`). -/
def duplicatePointMarker : Nat := 1

/-- Modelled from the spec: `vtkDataSetAttributes::DUPLICATECELL`
(the cell scope's duplicate ghost marker; header not under `src/`). -/
def duplicateCellMarker : Nat := 1

/-- Modelled from the spec: `vtkDataSetAttributes::GhostArrayName()`,
the canonical ghost array name (header not under `src/`). -/
def ghostArrayName : String := "vtkGhostType"

/-- `vtkDataReader::ConvertGhostLevelsToGhostType`: for pre-version-4
files, a one-component unsigned-8-bit field array named
`"vtkGhostLevels"` under the point or cell scope has each nonzero byte
replaced by the scope's duplicate marker and is renamed to the
canonical ghost name; everything else is left untouched. -/
def convertGhostLevelsToGhostType (fileMajorVersion : Int) (ft : FieldType)
    (arr : FieldArray) : FieldArray :=
  if fileMajorVersion < 4 ∧ arr.kind = ArrKind.u8 ∧ arr.numComp = 1 ∧
      (ft = FieldType.cellData ∨ ft = FieldType.pointData) ∧
      arr.name = "vtkGhostLevels" then
    let newValue := if ft = FieldType.cellData then duplicateCellMarker
      else duplicatePointMarker
    { arr with
      name := ghostArrayName
      values := arr.values.map (fun g => if g > 0 then newValue else g) }
  else arr

/-! ### Scalar sections (`vtkDataReader::ReadScalarData`) -/

/-- A named array handed to the attribute container.  The payload type
`A` is abstract: the claims about this routine do not depend on the
array representation `ReadArray` produces. -/
structure NamedArr (A : Type) where
  name : String
  arr : A
deriving DecidableEq, Repr

/-- The slice of `vtkDataSetAttributes` state the scalar section
touches: the designated Scalars slot, the extra arrays added by
`AddArray`, and the reader's remembered scalar lookup-table name. -/
structure AttrStateS (A : Type) where
  scalars : Option (NamedArr A)
  extras : List (NamedArr A)
  scalarLut : Option String
deriving DecidableEq, Repr

/-- Header phase of `ReadScalarData`: name token, type token, then
either `LOOKUP_TABLE` (component count defaults to 1) or an integer
component count (which must be ≥ 1) followed by `LOOKUP_TABLE`, then
the table-name token.  Returns `(rawName, typeTok, numComp,
tableName)` and the rest of the stream, or the failure position. -/
def parseScalarHeader (s : S) : Option (String × String × Int × String) × S :=
  match readStringTokP s with
  | (none, s') => (none, s')
  | (some buffer, s1) =>
    match readStringTokP s1 with
    | (none, s') => (none, s')
    | (some line, s2) =>
      match readStringTokP s2 with
      | (none, s') => (none, s')
      | (some key, s3) =>
        if lowerStr key = "lookup_table" then
          match readStringTokP s3 with
          | (none, s') => (none, s')
          | (some tableName, s4) => (some (buffer, line, 1, tableName), s4)
        else
          let numComp := atoiM key
          if numComp < 1 then (none, s3)
          else
            match readStringTokP s3 with
            | (none, s') => (none, s')
            | (some key2, s4) =>
              if lowerStr key2 = "lookup_table" then
                match readStringTokP s4 with
                | (none, s') => (none, s')
                | (some tableName, s5) => (some (buffer, line, numComp, tableName), s5)
              else (none, s4)

/-- The scalar skip decision of `ReadScalarData`:
`a->GetScalars() != nullptr || (ScalarsName && strcmp(name, ScalarsName))`. -/
def skipScalarB {A : Type} (scalarsName : Option String) (st : AttrStateS A)
    (name : String) : Bool :=
  st.scalars.isSome ||
    (match scalarsName with
     | some nm => nm != name
     | none => false)

/-- `vtkDataReader::ReadScalarData`, parametrised over the array reader
`ra` it delegates to (`ReadArray(typeTok, numPts, numComp)`, which
never consults the scalar filter, the read-all toggle or the attribute
container).  The skip decision mirrors
`a->GetScalars() != nullptr || (ScalarsName && name != ScalarsName)`;
a non-skipped array records the table name via `SetScalarLut` and
becomes the Scalars slot; a skipped array is added to the extra arrays
exactly when `ReadAllScalars` is on. -/
def readScalarData {A : Type} (ra : String → Int → Int → S → Option A × S)
    (numPts : Int) (scalarsName : Option String) (readAllScalars : Bool)
    (st : AttrStateS A) (s : S) : Option (AttrStateS A) × S :=
  match parseScalarHeader s with
  | (none, s') => (none, s')
  | (some (buffer, line, numComp, tableName), s') =>
    let name := decodeString buffer
    let skipScalar : Bool := skipScalarB scalarsName st name
    let st0 := if skipScalar then st else { st with scalarLut := some tableName }
    match ra line numPts numComp s' with
    | (none, s2) => (none, s2)
    | (some a, s2) =>
      if skipScalar = false then (some { st0 with scalars := some ⟨name, a⟩ }, s2)
      else if readAllScalars then
        (some { st0 with extras := st0.extras ++ [⟨name, a⟩] }, s2)
      else (some st0, s2)

/-- Stream position after `ReadScalarData`, which depends only on the
section contents and the delegated array reader — not on the filter
configuration or the container state. -/
def scalarStreamAfter {A : Type} (ra : String → Int → Int → S → Option A × S)
    (numPts : Int) (s : S) : S :=
  match parseScalarHeader s with
  | (none, s') => s'
  | (some (_, line, numComp, _), s') => (ra line numPts numComp s').2

/-- Success of `ReadScalarData`, likewise configuration-independent. -/
def scalarReadOk {A : Type} (ra : String → Int → Int → S → Option A × S)
    (numPts : Int) (s : S) : Bool :=
  match parseScalarHeader s with
  | (none, _) => false
  | (some (_, line, numComp, _), s') => (ra line numPts numComp s').1.isSome

/-! ### Lookup tables (`vtkDataReader::ReadLutData`) -/

/-- ASCII payload loop of `ReadLutData`: `size` rows of four floats. -/
def lutAsciiRows : Nat → S → Option Unit × S
  | 0, s => (some (), s)
  | n + 1, s =>
    match scanFloatP s with
    | (none, s') => (none, s')
    | (some _, s1) =>
      match scanFloatP s1 with
      | (none, s') => (none, s')
      | (some _, s2) =>
        match scanFloatP s2 with
        | (none, s') => (none, s')
        | (some _, s3) =>
          match scanFloatP s3 with
          | (none, s') => (none, s')
          | (some _, s4) => lutAsciiRows n s4

/-- `vtkDataReader::ReadLutData`: reads the table name and size; decides
`skipTable` from the Scalars slot and the two table-name filters; in
binary mode consumes one newline-terminated line and `4·size` raw
bytes, in ASCII mode `4·size` floats.  The result records whether the
table was attached to the Scalars slot (`some attached`) or the read
failed (`none`). -/
def readLutData (binMode : Bool) (lookupTableName scalarLut : Option String)
    (scalarsPresent : Bool) (s : S) : Option Bool × S :=
  match readStringTokP s with
  | (none, s') => (none, s')
  | (some name, s1) =>
    match readIntP s1 with
    | (none, s') => (none, s')
    | (some size, s2) =>
      let skipTable : Bool := (!scalarsPresent) ||
        (match lookupTableName with
         | some nm => nm != name
         | none => false) ||
        (match scalarLut with
         | some nm => nm != name
         | none => false)
      if binMode then
        match readLineP s2 with
        | (none, s') => (none, s')
        | (some _, s3) =>
          if 4 * size.toNat ≤ s3.length then
            (some (!skipTable), s3.drop (4 * size.toNat))
          else (none, [])
      else
        match lutAsciiRows size.toNat s2 with
        | (none, s') => (none, s')
        | (some _, s3) => (some (!skipTable), s3)

/-- Stream position after `ReadLutData`: a function of the encoding and
the section contents only. -/
def lutStreamAfter (binMode : Bool) (s : S) : S :=
  match readStringTokP s with
  | (none, s') => s'
  | (some _, s1) =>
    match readIntP s1 with
    | (none, s') => s'
    | (some size, s2) =>
      if binMode then
        match readLineP s2 with
        | (none, s') => s'
        | (some _, s3) =>
          if 4 * size.toNat ≤ s3.length then s3.drop (4 * size.toNat) else []
      else (lutAsciiRows size.toNat s2).2

/-- Success of `ReadLutData`: likewise independent of the table-name
filters and of the Scalars slot. -/
def lutReadOk (binMode : Bool) (s : S) : Bool :=
  match readStringTokP s with
  | (none, _) => false
  | (some _, s1) =>
    match readIntP s1 with
    | (none, _) => false
    | (some size, s2) =>
      if binMode then
        match readLineP s2 with
        | (none, _) => false
        | (some _, s3) => decide (4 * size.toNat ≤ s3.length)
      else (lutAsciiRows size.toNat s2).1.isSome

/-! ### Field data (`vtkDataReader::ReadFieldData`) -/

/-- Per-array loop of `ReadFieldData`.  Each iteration reads the array
name (skipping `NULL_ARRAY` placeholders), the component count, the
tuple count and the type tag, then delegates to the array reader `ra`;
a successfully parsed array is named with the percent-decoded name, run
through the ghost conversion and appended — unless the field is skipped
and `ReadAllFields` is off, in which case it is dropped.  When the loop
finishes, a skipped field with `ReadAllFields` off is discarded and the
call reports failure to its caller (`return nullptr`). -/
def readFieldArrays (ra : String → Int → Int → S → Option FieldArray × S)
    (skipField readAllFields : Bool) (fileMajorVersion : Int) (ft : FieldType) :
    Nat → List FieldArray → S → Option (List FieldArray) × S
  | 0, acc, s =>
    (if skipField ∧ ¬ readAllFields then none else some acc, s)
  | n + 1, acc, s =>
    match readStringTokP s with
    | (none, s') => (none, s')
    | (some buffer, s1) =>
      if buffer = "NULL_ARRAY" then readFieldArrays ra skipField readAllFields fileMajorVersion ft n acc s1
      else
        match readIntP s1 with
        | (none, s') => (none, s')
        | (some numComp, s2) =>
          match readIntP s2 with
          | (none, s') => (none, s')
          | (some numTuples, s3) =>
            match readStringTokP s3 with
            | (none, s') => (none, s')
            | (some typeTok, s4) =>
              match ra typeTok numTuples numComp s4 with
              | (none, s5) => (none, s5)
              | (some arr, s5) =>
                let acc' :=
                  if ¬ skipField ∨ readAllFields then
                    acc ++ [convertGhostLevelsToGhostType fileMajorVersion ft
                      { arr with name := decodeString buffer }]
                  else acc
                readFieldArrays ra skipField readAllFields fileMajorVersion ft n acc' s5

/-- The field skip decision of `ReadFieldData`:
`FieldDataName && strcmp(name, FieldDataName) != 0`. -/
def skipFieldB (fieldDataName : Option String) (fname : String) : Bool :=
  match fieldDataName with
  | some nm => nm != fname
  | none => false

/-- `vtkDataReader::ReadFieldData`: reads the field name and the number
of arrays, decides `skipField` from the field-data name filter, then
runs the per-array loop.  `none` is the `nullptr` return. -/
def readFieldData (ra : String → Int → Int → S → Option FieldArray × S)
    (fieldDataName : Option String) (readAllFields : Bool)
    (fileMajorVersion : Int) (ft : FieldType) (s : S) :
    Option (List FieldArray) × S :=
  match readStringTokP s with
  | (none, s') => (none, s')
  | (some fname, s1) =>
    match readIntP s1 with
    | (none, s') => (none, s')
    | (some numArrays, s2) =>
      readFieldArrays ra (skipFieldB fieldDataName fname) readAllFields
        fileMajorVersion ft numArrays.toNat [] s2

/-- The `field` case of the attribute keyword loops
(`ReadRowData` and its siblings): a `nullptr` from `ReadFieldData`
makes the whole attribute read return 0 (failure); otherwise the
arrays are added to the scope's container and the loop continues. -/
def rowDataFieldCase (ra : String → Int → Int → S → Option FieldArray × S)
    (fieldDataName : Option String) (readAllFields : Bool)
    (fileMajorVersion : Int) (ft : FieldType)
    (container : List FieldArray) (s : S) : Option (List FieldArray) × S :=
  match readFieldData ra fieldDataName readAllFields fileMajorVersion ft s with
  | (none, s') => (none, s')
  | (some f, s') => (some (container ++ f), s')

/-! ### String-vector information keys (`vtkDataReader::ReadInformation`) -/

/-- Read `n` lines for a string-vector key.  A failed `ReadLine`
(end of input) aborts; the stream position at the failure is kept. -/
def takeInfoLines : Nat → S → Option (List String) × S
  | 0, s => (some [], s)
  | n + 1, s =>
    match readLineP s with
    | (none, s') => (none, s')
    | (some ln, s1) =>
      match takeInfoLines n s1 with
      | (none, s') => (none, s')
      | (some lns, s') => (some (ln :: lns), s')

/-- The string-vector branch of `ReadInformation` for one key, acting on
the key's current value `prev` (the `vtkInformation` entry): expect a
token with `DATA` as its first four characters and an integer length
`L`, pop the trailing newline, then read `L` lines, percent-decoding and
appending each; on a malformed header the value is left unchanged
(warn-and-continue), on `L = 0` it is set to the empty vector, and if
any of the `L` line reads fails the whole entry is removed. -/
def readInfoStringVector (prev : Option (List String)) (s : S) :
    Option (List String) × S :=
  match readStringTokP s with
  | (none, s') => (prev, s')
  | (some line, s1) =>
    if ¬ startsWithS line ("DATA") then (prev, s1)
    else
      match readIntP s1 with
      | (none, s') => (prev, s')
      | (some len, s2) =>
        let s3 := (readLineP s2).2
        if len = 0 then (some [], s3)
        else if len < 0 then (prev, s3)
        else
          match takeInfoLines len.toNat s3 with
          | (none, s') => (none, s')
          | (some lns, s') =>
            (some (prev.getD [] ++ lns.map decodeString), s')

/-! ### Binary payloads (`vtkReadBinaryData`, `vtkDataReader::ReadArray`) -/

/-- Byte stream of the binary payload paths. -/
abbrev B := List Nat

/-- Big-endian value of a byte list (`vtkByteSwap::SwapBE` applied to a
raw read). -/
def beVal (bs : B) : Nat := bs.foldl (fun a b => 256 * a + b) 0

/-- `IS->getline(line, 256)` used as the binary preamble "suck up
newline": consume bytes up to and including the first newline, storing
at most 255 of them.  `none` when the input ends, or when 255 bytes are
stored without reaching a newline (the source then has a failed stream
and the subsequent payload read returns nothing). -/
def consumeLineFuel : Nat → B → Option B
  | _, [] => none
  | 0, b :: t => if b = 10 then some t else none
  | k + 1, b :: t => if b = 10 then some t else consumeLineFuel k t

/-- The binary preamble line consumer with the 256-byte buffer. -/
def consumeLineB (s : B) : Option B := consumeLineFuel 255 s

/-- `vtkReadBinaryData<T>`: nothing is consumed when the element count
is zero; otherwise the preamble newline is consumed and then exactly
`size · numTuples · numComp` raw bytes. -/
def vtkReadBinaryDataConsume (size numTuples numComp : Nat) (s : B) : Option B :=
  if numTuples = 0 ∨ numComp = 0 then some s
  else
    match consumeLineB s with
    | none => none
    | some s1 =>
      if size * numTuples * numComp ≤ s1.length then
        some (s1.drop (size * numTuples * numComp))
      else none

/-- Recognised element kinds of `ReadArray`. -/
inductive VtkTy
  | bit
  | i8
  | u8
  | i16
  | u16
  | idt
  | i32
  | u32
  | lng
  | ulng
  | i64
  | u64
  | f32
  | f64
  | strTy
  | variant
deriving DecidableEq, Repr

/-- `VTK_SIZEOF_LONG` of the host: the `long` / `unsigned_long` legacy
tags are read with the platform width (8 on LP64 hosts). -/
def sizeofLong : Nat := 8

/-- On-wire element size of each fixed-width kind (`sizeof(T)` in
`vtkReadBinaryData`); `none` for the bit-packed, string and variant
kinds. -/
def elemSize : VtkTy → Option Nat
  | .i8 => some 1
  | .u8 => some 1
  | .i16 => some 2
  | .u16 => some 2
  | .idt => some 4
  | .i32 => some 4
  | .u32 => some 4
  | .lng => some sizeofLong
  | .ulng => some sizeofLong
  | .i64 => some 8
  | .u64 => some 8
  | .f32 => some 4
  | .f64 => some 8
  | _ => none

/-- The type-tag dispatch chain of `ReadArray`, in source order: the tag
is lowercased, then matched by `strncmp` against each candidate (exact
`strcmp` only for `char` / `signed_char`). -/
def recognizeType (dataType : String) : Option VtkTy :=
  let t := lowerStr dataType
  if startsWithS t ("bit") then some .bit
  else if t = "char" ∨ t = "signed_char" then some .i8
  else if startsWithS t ("unsigned_char") then some .u8
  else if startsWithS t ("short") then some .i16
  else if startsWithS t ("unsigned_short") then some .u16
  else if startsWithS t ("vtkidtype") then some .idt
  else if startsWithS t ("int") then some .i32
  else if startsWithS t ("unsigned_int") then some .u32
  else if startsWithS t ("long") then some .lng
  else if startsWithS t ("unsigned_long") then some .ulng
  else if startsWithS t ("vtktypeint64") then some .i64
  else if startsWithS t ("vtktypeuint64") then some .u64
  else if startsWithS t ("float") then some .f32
  else if startsWithS t ("double") then some .f64
  else if startsWithS t ("string") ∨ startsWithS t ("utf8_string") then some .strTy
  else if startsWithS t ("variant") then some .variant
  else none

/-- One binary string value of a string array: the first byte is peeked
(not consumed) and its top two bits select the header form; the length
field then read is 1, 2, 4 or 8 bytes long and *includes* that first
byte (for the 2- and 4-byte forms the top two bits are masked off);
finally the string's bytes follow verbatim.  `none` when the stream is
too short. -/
def readBinaryStringValue (s : B) : Option (B × B) :=
  match s with
  | [] => none
  | b :: rest =>
    let h := b / 64
    if h = 3 then
      let len := b % 64
      if len ≤ rest.length then some (rest.take len, rest.drop len) else none
    else if h = 2 then
      if 2 ≤ s.length then
        let len := beVal (s.take 2) % 2 ^ 14
        let r := s.drop 2
        if len ≤ r.length then some (r.take len, r.drop len) else none
      else none
    else if h = 1 then
      if 4 ≤ s.length then
        let len := beVal (s.take 4) % 2 ^ 30
        let r := s.drop 4
        if len ≤ r.length then some (r.take len, r.drop len) else none
      else none
    else
      if 8 ≤ s.length then
        let len := beVal (s.take 8)
        let r := s.drop 8
        if len ≤ r.length then some (r.take len, r.drop len) else none
      else none

/-- The inner loop of the binary string branch: `n` consecutive values,
counted. -/
def readStringsB : Nat → B → Option (Nat × B)
  | 0, s => some (0, s)
  | n + 1, s =>
    match readBinaryStringValue s with
    | none => none
    | some (_, s1) =>
      match readStringsB n s1 with
      | none => none
      | some (c, s2) => some (c + 1, s2)

/-- Binary-mode `ReadArray` payload phase for one recognised kind:
returns the number of logical values materialised and the remaining
stream.  Fixed-width kinds go through `vtkReadBinaryData`; the bit kind
reads `⌈(N·K)/8⌉` packed bytes after the preamble newline (nothing at
all when `N·K = 0`); the string kind consumes its preamble newline
unconditionally and then `N·K` length-prefixed values.  The variant
kind uses formatted ASCII extraction even in binary mode and is covered
by the ASCII loop model. -/
def readArrayBinCount (ty : VtkTy) (numTuples numComp : Nat) (s : B) :
    Option (Nat × B) :=
  match elemSize ty with
  | some sz =>
    (vtkReadBinaryDataConsume sz numTuples numComp s).map
      (fun s' => (numTuples * numComp, s'))
  | none =>
    match ty with
    | .bit =>
      if numTuples = 0 ∨ numComp = 0 then some (numTuples * numComp, s)
      else
        match consumeLineB s with
        | none => none
        | some s1 =>
          let nb := (numTuples * numComp + 7) / 8
          if nb ≤ s1.length then some (numTuples * numComp, s1.drop nb) else none
    | .strTy =>
      match consumeLineB s with
      | none => none
      | some s1 => readStringsB (numTuples * numComp) s1
    | _ => none

/-- The ASCII element loops of `ReadArray` (`vtkReadASCIIData`, the
ascii bit loop, the ascii string loop and the variant loop): one value
is pulled from the source per `(tuple, component)` pair; the loop fails
as soon as a value cannot be read.  The stream is abstracted to the
list of values it still yields. -/
def vtkReadASCIIVals {V : Type} : Nat → List V → Option (Nat × List V)
  | 0, vs => some (0, vs)
  | _ + 1, [] => none
  | n + 1, _ :: vs =>
    match vtkReadASCIIVals n vs with
    | none => none
    | some (c, r) => some (c + 1, r)

/-! ### Color scalars (`vtkDataReader::ReadCoScalarData`) -/

/-- An array as materialised by the color-scalars section: either
unsigned bytes or floats. -/
inductive StoredArr
  | u8 (vals : List Nat)
  | f32 (vals : List ℚ)
deriving DecidableEq, Repr

/-- Attribute-container slice used by the color-scalars section. -/
structure CoState where
  scalars : Option (String × StoredArr)
  extras : List (String × StoredArr)
deriving DecidableEq, Repr

/-- `ReadArray("unsigned_char", numPts, numComp)` as invoked by the
binary branch of `ReadCoScalarData`: nothing is consumed when the
element count is zero, otherwise the preamble newline and then exactly
`numPts·numComp` raw bytes, returned as values. -/
def readU8ArrayBin (numTuples numComp : Nat) (s : B) : Option (List Nat × B) :=
  if numTuples = 0 ∨ numComp = 0 then some ([], s)
  else
    match consumeLineB s with
    | none => none
    | some s1 =>
      if numTuples * numComp ≤ s1.length then
        some (s1.take (numTuples * numComp), s1.drop (numTuples * numComp))
      else none

/-- `(unsigned char)(255.0 * v + 0.5)` of the ASCII quantisation loop,
on the exact rationals the model uses for the parsed floats. -/
def quantizeCo (v : ℚ) : Nat := (⌊255 * v + 1 / 2⌋).toNat

/-- The skip decision shared by both branches of `ReadCoScalarData`:
the Scalars slot is taken, or a scalars name filter is set and differs
from the decoded name. -/
def coSkip (scalarsName : Option String) (st : CoState) (name : String) : Bool :=
  st.scalars.isSome ||
    (match scalarsName with
     | some nm => nm != name
     | none => false)

/-- Binary branch of `vtkDataReader::ReadCoScalarData`: the payload is
read directly as unsigned bytes and installed (Scalars slot, extra
array when `ReadAllColorScalars` is on, or dropped). -/
def readCoScalarDataBin (scalarsName : Option String) (readAllColorScalars : Bool)
    (st : CoState) (rawName : String) (numPts numComp : Nat) (s : B) :
    Option CoState × B :=
  let name := decodeString rawName
  let skipScalar := coSkip scalarsName st name
  match readU8ArrayBin numPts numComp s with
  | none => (none, s)
  | some (vals, s') =>
    if skipScalar = false then (some { st with scalars := some (name, .u8 vals) }, s')
    else if readAllColorScalars then
      (some { st with extras := st.extras ++ [(name, .u8 vals)] }, s')
    else (some st, s')

/-- ASCII branch of `vtkDataReader::ReadCoScalarData`: `numPts·numComp`
floats are read (modelled as the pre-parsed rational stream `vals`);
when the array is kept, each value is quantised to an unsigned byte by
`(unsigned char)(255.0*v + 0.5)` and the resulting `u8` array is
installed. -/
def readCoScalarDataAscii (scalarsName : Option String) (readAllColorScalars : Bool)
    (st : CoState) (rawName : String) (numPts numComp : Nat) (vals : List ℚ) :
    Option CoState × List ℚ :=
  let name := decodeString rawName
  let skipScalar := coSkip scalarsName st name
  if numPts * numComp ≤ vals.length then
    let data := vals.take (numPts * numComp)
    let rest := vals.drop (numPts * numComp)
    if skipScalar = false then
      (some { st with scalars := some (name, .u8 (data.map quantizeCo)) }, rest)
    else if readAllColorScalars then
      (some { st with extras := st.extras ++ [(name, .u8 (data.map quantizeCo))] }, rest)
    else (some st, rest)
  else (none, [])

/-! ## Theorems -/
/-! ## Theorems -/

/-! ### C8: percent-hex decoding -/

theorem decodeAux_eq_spec_bounded : ∀ (n : Nat) (l : List Char), l.length ≤ n →
    decodeCharsAux false l = decodeSpec l := by
  intro n
  induction n with
  | zero =>
    intro l hl
    have : l = [] := List.length_eq_zero.mp (Nat.le_zero.mp hl)
    subst this
    rfl
  | succ n ih =>
    intro l hl
    match l with
    | [] => rfl
    | [c] =>
      rw [decodeCharsAux.eq_4]
      by_cases hc : c = '%'
      · subst hc
        simp [decodeSpec, decodeCharsAux]
      · simp [decodeSpec, hc, decodeCharsAux]
    | [c, c1] =>
      have h1 : decodeCharsAux false [c1] = decodeSpec [c1] := by
        refine ih [c1] ?_
        simp at hl ⊢
        omega
      rw [decodeCharsAux.eq_3]
      by_cases hc : c = '%'
      · subst hc
        simp [decodeSpec, h1]
      · simp [decodeSpec, hc, h1]
    | c :: c1 :: c2 :: r =>
      rw [decodeCharsAux.eq_2]
      by_cases hc : c = '%'
      · subst hc
        have hr : decodeCharsAux false r = decodeSpec r := by
          refine ih r ?_
          simp at hl ⊢
          omega
        simp [decodeSpec, hr]
      · have h1 : decodeCharsAux false (c1 :: c2 :: r) = decodeSpec (c1 :: c2 :: r) := by
          refine ih _ ?_
          simp at hl ⊢
          omega
        simp [decodeSpec, hc, h1]

theorem decodeCharsAux_false_eq_spec (l : List Char) :
    decodeCharsAux false l = decodeSpec l :=
  decodeAux_eq_spec_bounded l.length l le_rfl

theorem decodeSpec_len_bounded : ∀ (n : Nat) (l : List Char), l.length ≤ n →
    (decodeSpec l).length ≤ l.length := by
  intro n
  induction n with
  | zero =>
    intro l hl
    have : l = [] := List.length_eq_zero.mp (Nat.le_zero.mp hl)
    subst this
    simp [decodeSpec]
  | succ n ih =>
    intro l hl
    match l with
    | [] => simp [decodeSpec]
    | c :: rest =>
      have hr : (decodeSpec rest).length ≤ rest.length := by
        refine ih rest ?_
        simp at hl
        omega
      by_cases hc : c = '%'
      · subst hc
        match rest with
        | c1 :: c2 :: r =>
          have hr2 : (decodeSpec r).length ≤ r.length := by
            refine ih r ?_
            simp at hl
            omega
          rw [decodeSpec.eq_2]
          simp only [List.length_cons]
          omega
        | [c1] =>
          rw [decodeSpec.eq_3 _ (by intro a b r h; cases h)]
          simp only [List.length_cons] at hr ⊢
          omega
        | [] =>
          rw [decodeSpec.eq_3 _ (by intro a b r h; cases h)]
          simp [decodeSpec]
      · rw [decodeSpec.eq_4 _ _ (by intro a b r h; exact absurd h hc) (fun h => absurd h hc)]
        simp only [List.length_cons]
        omega

theorem decodeSpec_length_le (l : List Char) :
    (decodeSpec l).length ≤ l.length :=
  decodeSpec_len_bounded l.length l le_rfl

/-- C8 counterexample: on the input `"ab%"` the trailing `'%'` has
fewer than two following characters; `DecodeString` drops it instead of
passing it through, so the decode of `"ab%"` is `"ab"`, not `"ab%"`. -/
theorem claim_C8_counterexample :
    decodeString ("ab%") = "ab" ∧ ("ab" : String) ≠ "ab%" := by
  refine ⟨by decide, by decide⟩

/-- C8 (amended): for inputs of length ≥ 3 (a shorter input whose `'%'`
lacks two following characters makes the source read past its buffer),
`DecodeString` replaces every `'%'` having at least two following
characters together with those two characters by the single byte
`sscanf` parses from them as hex, drops a `'%'` with fewer than two
following characters, and passes every other byte through; the decoded
length never exceeds the input length; the on-disk name
`"my%20name%2E"` decodes to `"my name."`. -/
theorem claim_C8 (l : List Char) (h : 3 ≤ l.length) :
    decodeChars l = decodeSpec l ∧
    (decodeChars l).length ≤ l.length ∧
    decodeString ("my%20name%2E") = "my name." := by
  have hshort : decide (l.length < 3) = false := by
    simp only [decide_eq_false_iff_not]
    omega
  have he : decodeChars l = decodeSpec l := by
    rw [decodeChars, hshort, decodeCharsAux_false_eq_spec]
  refine ⟨he, ?_, by decide⟩
  rw [he]
  exact decodeSpec_length_le l

/-- C8 witness: the amended theorem applied to the specification's own
example input. -/
theorem claim_C8_witness :
    decodeChars (String.toList ("my%20name%2E")) =
      decodeSpec (String.toList ("my%20name%2E")) ∧
    decodeString ("my%20name%2E") = "my name." := by
  have h := claim_C8 (String.toList ("my%20name%2E")) (by decide)
  exact ⟨h.1, h.2.2⟩

/-! ### C3: header validation -/

theorem headerOkOf_parse_none (l1 t : String) (b : Bool)
    (hp : sscanfTwoInts (l1.toList.drop 22) = none) :
    (headerOkOf l1 t b).major = 0 ∧ (headerOkOf l1 t b).minor = 0 ∧
    (headerOkOf l1 t b).fileVersion = 0 ∧ (headerOkOf l1 t b).parseWarn = true := by
  have hp2 : sscanfTwoInts (List.drop 22 l1.data) = none := hp
  simp [headerOkOf, hp2]

theorem headerOkOf_parse_some (l1 t : String) (b : Bool) (a c : Int)
    (hp : sscanfTwoInts (l1.toList.drop 22) = some (a, c)) :
    (headerOkOf l1 t b).major = a ∧ (headerOkOf l1 t b).minor = c ∧
    (headerOkOf l1 t b).fileVersion = 10 * a + c ∧
    (headerOkOf l1 t b).parseWarn = false := by
  have hp2 : sscanfTwoInts (List.drop 22 l1.data) = some (a, c) := hp
  simp [headerOkOf, hp2]

theorem headerOkOf_versionWarn (l1 t : String) (b : Bool) :
    (headerOkOf l1 t b).versionWarn =
      decide ((headerOkOf l1 t b).major > vtkLegacyReaderMajorVersion ∨
        ((headerOkOf l1 t b).major = vtkLegacyReaderMajorVersion ∧
          (headerOkOf l1 t b).minor > vtkLegacyReaderMinorVersion)) := rfl

/-- C3 counterexample: the encoding check is a lowercased five- resp.
six-character `strncmp`, i.e. a prefix match: the third token
`"ASCIIoops"` is neither `ASCII` nor `BINARY` (case-insensitively), but
`ReadHeader` nevertheless succeeds — refuting "fails ... exactly when
the third token is not ASCII or BINARY". -/
theorem claim_C3_counterexample :
    readHeader (String.toList ("# vtk DataFile Version 4.2\ndemo\nASCIIoops\n")) =
      Except.ok ⟨4, 2, 42, false, "demo", false, false⟩ ∧
    lowerStr ("ASCIIoops") ≠ "ascii" ∧ lowerStr ("ASCIIoops") ≠ "binary" := by
  refine ⟨rfl, by decide, by decide⟩

/-- C3 (amended): `ReadHeader` fails with the unrecognized-format error
exactly when the first line does not start with
`"# vtk DataFile Version"` or the third token does not start,
case-insensitively, with `ascii` or `binary`; when the magic matches
but `<major>.<minor>` cannot be parsed the version becomes 0.0 with a
warning and the call still succeeds; a parsed version strictly greater
than the compiled-in maximum only sets the version warning. -/
theorem claim_C3 (s : S) :
    (readHeader s = .error .unrecognizedFormat ↔
      (∃ l1 s1, readLineP s = (some l1, s1) ∧
        (¬ startsWithS l1 headerMagic ∨
          (startsWithS l1 headerMagic ∧
            ∃ t s2 tok s3, readLineP s1 = (some t, s2) ∧
              readStringTokP s2 = (some tok, s3) ∧
              ¬ startsWithS (lowerStr tok) ("ascii") ∧
              ¬ startsWithS (lowerStr tok) ("binary"))))) ∧
    (∀ l1 s1 t s2 tok s3, readLineP s = (some l1, s1) →
      startsWithS l1 headerMagic →
      readLineP s1 = (some t, s2) → readStringTokP s2 = (some tok, s3) →
      (startsWithS (lowerStr tok) ("ascii") ∨ startsWithS (lowerStr tok) ("binary")) →
      ∃ r, readHeader s = .ok r ∧ r.title = t ∧
        r.binaryMode = !startsWithS (lowerStr tok) ("ascii") ∧
        (sscanfTwoInts (l1.toList.drop 22) = none →
          r.major = 0 ∧ r.minor = 0 ∧ r.fileVersion = 0 ∧ r.parseWarn = true) ∧
        (∀ a b, sscanfTwoInts (l1.toList.drop 22) = some (a, b) →
          r.major = a ∧ r.minor = b ∧ r.fileVersion = 10 * a + b ∧ r.parseWarn = false) ∧
        r.versionWarn = decide (r.major > vtkLegacyReaderMajorVersion ∨
          (r.major = vtkLegacyReaderMajorVersion ∧ r.minor > vtkLegacyReaderMinorVersion))) := by
  rcases h1 : readLineP s with ⟨o1, s1v⟩
  cases o1 with
  | none =>
    constructor
    · simp [readHeader, h1]
    · intro l1 s1 t s2 tok s3 hE
      simp at hE
  | some l1 =>
    by_cases hm : startsWithS l1 headerMagic
    · rcases h2 : readLineP s1v with ⟨o2, s2v⟩
      cases o2 with
      | none =>
        constructor
        · simp [readHeader, h1, hm, h2]
        · intro l1' s1' t s2 tok s3 hE hm' hE2
          injection hE with hEa hEb
          injection hEa with hEa
          subst hEa
          subst hEb
          rw [h2] at hE2
          simp at hE2
      | some tl =>
        rcases h3 : readStringTokP s2v with ⟨o3, s3v⟩
        cases o3 with
        | none =>
          constructor
          · simp [readHeader, h1, hm, h2, h3]
          · intro l1' s1' t s2 tok s3 hE hm' hE2 hE3
            injection hE with hEa hEb
            injection hEa with hEa
            subst hEa
            subst hEb
            rw [h2] at hE2
            injection hE2 with hEa hEb
            injection hEa with hEa
            subst hEa
            subst hEb
            rw [h3] at hE3
            simp at hE3
        | some tok =>
          have finishOk : ∀ bin : Bool, readHeader s = .ok (headerOkOf l1 tl bin) →
              (headerOkOf l1 tl bin).binaryMode = !startsWithS (lowerStr tok) ("ascii") →
              ∃ r, readHeader s = .ok r ∧ r.title = tl ∧
                r.binaryMode = !startsWithS (lowerStr tok) ("ascii") ∧
                (sscanfTwoInts (l1.toList.drop 22) = none →
                  r.major = 0 ∧ r.minor = 0 ∧ r.fileVersion = 0 ∧ r.parseWarn = true) ∧
                (∀ a b, sscanfTwoInts (l1.toList.drop 22) = some (a, b) →
                  r.major = a ∧ r.minor = b ∧ r.fileVersion = 10 * a + b ∧
                    r.parseWarn = false) ∧
                r.versionWarn = decide (r.major > vtkLegacyReaderMajorVersion ∨
                  (r.major = vtkLegacyReaderMajorVersion ∧
                    r.minor > vtkLegacyReaderMinorVersion)) := by
            intro bin hr hbm
            refine ⟨headerOkOf l1 tl bin, hr, rfl, hbm, ?_, ?_,
              headerOkOf_versionWarn l1 tl bin⟩
            · intro hp
              exact headerOkOf_parse_none l1 tl bin hp
            · intro a b hp
              exact headerOkOf_parse_some l1 tl bin a b hp
          by_cases ha : startsWithS (lowerStr tok) ("ascii")
          · have hr : readHeader s = .ok (headerOkOf l1 tl false) := by
              simp [readHeader, h1, hm, h2, h3, ha]
            constructor
            · constructor
              · intro hbad
                rw [hr] at hbad
                cases hbad
              · rintro ⟨l1', s1', hE, hcase⟩
                injection hE with hEa hEb
                injection hEa with hEa
                subst hEa
                subst hEb
                rcases hcase with hbad | ⟨_, t, s2, tok', s3, hE2, hE3, hna, hnb⟩
                · exact absurd hm hbad
                · rw [h2] at hE2
                  injection hE2 with hEa hEb
                  injection hEa with hEa
                  subst hEa
                  subst hEb
                  rw [h3] at hE3
                  injection hE3 with hEa hEb
                  injection hEa with hEa
                  subst hEa
                  exact absurd ha hna
            · intro l1' s1' t s2 tok' s3 hE hm' hE2 hE3 henc
              injection hE with hEa hEb
              injection hEa with hEa
              subst hEa
              subst hEb
              rw [h2] at hE2
              injection hE2 with hEa hEb
              injection hEa with hEa
              subst hEa
              subst hEb
              rw [h3] at hE3
              injection hE3 with hEa hEb
              injection hEa with hEa
              subst hEa
              subst hEb
              exact finishOk false hr (by simp [headerOkOf, ha])
          · by_cases hb : startsWithS (lowerStr tok) ("binary")
            · have hr : readHeader s = .ok (headerOkOf l1 tl true) := by
                simp [readHeader, h1, hm, h2, h3, ha, hb]
              constructor
              · constructor
                · intro hbad
                  rw [hr] at hbad
                  cases hbad
                · rintro ⟨l1', s1', hE, hcase⟩
                  injection hE with hEa hEb
                  injection hEa with hEa
                  subst hEa
                  subst hEb
                  rcases hcase with hbad | ⟨_, t, s2, tok', s3, hE2, hE3, hna, hnb⟩
                  · exact absurd hm hbad
                  · rw [h2] at hE2
                    injection hE2 with hEa hEb
                    injection hEa with hEa
                    subst hEa
                    subst hEb
                    rw [h3] at hE3
                    injection hE3 with hEa hEb
                    injection hEa with hEa
                    subst hEa
                    exact absurd hb hnb
              · intro l1' s1' t s2 tok' s3 hE hm' hE2 hE3 henc
                injection hE with hEa hEb
                injection hEa with hEa
                subst hEa
                subst hEb
                rw [h2] at hE2
                injection hE2 with hEa hEb
                injection hEa with hEa
                subst hEa
                subst hEb
                rw [h3] at hE3
                injection hE3 with hEa hEb
                injection hEa with hEa
                subst hEa
                subst hEb
                exact finishOk true hr (by simp [headerOkOf, ha])
            · constructor
              · constructor
                · intro _
                  exact ⟨l1, s1v, rfl, Or.inr ⟨hm, tl, s2v, tok, s3v, h2, h3, by simp [ha], by simp [hb]⟩⟩
                · intro _
                  simp [readHeader, h1, hm, h2, h3, ha, hb]
              · intro l1' s1' t s2 tok' s3 hE hm' hE2 hE3 henc
                injection hE with hEa hEb
                injection hEa with hEa
                subst hEa
                subst hEb
                rw [h2] at hE2
                injection hE2 with hEa hEb
                injection hEa with hEa
                subst hEa
                subst hEb
                rw [h3] at hE3
                injection hE3 with hEa hEb
                injection hEa with hEa
                subst hEa
                subst hEb
                rcases henc with henc | henc
                · exact absurd henc ha
                · exact absurd henc hb
    · constructor
      · constructor
        · intro _
          exact ⟨l1, s1v, rfl, Or.inl (by simp [hm])⟩
        · intro _
          simp [readHeader, h1, hm]
      · intro l1' s1' t s2 tok s3 hE hm' hE2 hE3 henc
        injection hE with hEa hEb
        injection hEa with hEa
        subst hEa
        exact absurd hm' hm
/-- C3 witness: a header whose version text `junk` is unparseable and
whose encoding token is `binaryX` still succeeds, with version 0.0 and
the parse warning set. -/
theorem claim_C3_witness :
    ∃ r, readHeader (String.toList ("# vtk DataFile Version junk\nt\nbinaryX")) =
        Except.ok r ∧
      r.major = 0 ∧ r.minor = 0 ∧ r.fileVersion = 0 ∧ r.parseWarn = true := by
  have h := (claim_C3 (String.toList ("# vtk DataFile Version junk\nt\nbinaryX"))).2
    "# vtk DataFile Version junk" (String.toList ("t\nbinaryX"))
    "t" (String.toList ("binaryX")) "binaryX" [] rfl (by decide) rfl rfl
    (Or.inr (by decide))
  obtain ⟨r, hr, _, _, hnone, _, _⟩ := h
  exact ⟨r, hr, hnone (by decide)⟩

/-! ### C1: binary variable-width string lengths -/

/-- C1 counterexample: on the claim's own payload
`0x80 0x00 0x04 'w' 'x' 'y' 'z'` the reader peeks `0x80` (header code
2) and then reads a two-byte length field that *includes* that first
byte: the length is `0x8000` with the top two bits masked off, i.e. 0,
so the value parsed is the empty string and `0x04 'w' 'x' 'y' 'z'`
remains unread — not the string `"wxyz"` the claim asserts. -/
theorem claim_C1_counterexample :
    readBinaryStringValue [0x80, 0x00, 0x04, 119, 120, 121, 122] =
      some ([], [4, 119, 120, 121, 122]) ∧
    ([] : B) ≠ [119, 120, 121, 122] := ⟨rfl, by decide⟩

/-- C1 (amended): the reader peeks the first byte `b`; its top two bits
form the header code H.  For H=3 that single byte is consumed and the
length is its low 6 bits; for H=2 (resp. H=1) the length field is the
next 2 (resp. 4) bytes big-endian *including* the peeked byte, with the
top two bits masked off; for H=0 it is the next 8 bytes big-endian
including the peeked byte.  Then exactly L bytes are read verbatim.
`0xC3 'a' 'b' 'c'` yields `"abc"`; the two-byte encoding of `"wxyz"`
is `0x80 0x04 'w' 'x' 'y' 'z'`. -/
theorem claim_C1 (b : Nat) (rest : B) :
    (b / 64 = 3 → b % 64 ≤ rest.length →
      readBinaryStringValue (b :: rest) =
        some (rest.take (b % 64), rest.drop (b % 64))) ∧
    (∀ b1 r, b / 64 = 2 → rest = b1 :: r →
      beVal [b, b1] % 2 ^ 14 ≤ r.length →
      readBinaryStringValue (b :: rest) =
        some (r.take (beVal [b, b1] % 2 ^ 14), r.drop (beVal [b, b1] % 2 ^ 14))) ∧
    (∀ b1 b2 b3 r, b / 64 = 1 → rest = b1 :: b2 :: b3 :: r →
      beVal [b, b1, b2, b3] % 2 ^ 30 ≤ r.length →
      readBinaryStringValue (b :: rest) =
        some (r.take (beVal [b, b1, b2, b3] % 2 ^ 30),
          r.drop (beVal [b, b1, b2, b3] % 2 ^ 30))) ∧
    (∀ b1 b2 b3 b4 b5 b6 b7 r, b / 64 = 0 →
      rest = b1 :: b2 :: b3 :: b4 :: b5 :: b6 :: b7 :: r →
      beVal [b, b1, b2, b3, b4, b5, b6, b7] ≤ r.length →
      readBinaryStringValue (b :: rest) =
        some (r.take (beVal [b, b1, b2, b3, b4, b5, b6, b7]),
          r.drop (beVal [b, b1, b2, b3, b4, b5, b6, b7]))) ∧
    readBinaryStringValue [0xC3, 97, 98, 99] = some ([97, 98, 99], []) ∧
    readBinaryStringValue [0x80, 0x04, 119, 120, 121, 122] =
      some ([119, 120, 121, 122], []) := by
  refine ⟨?_, ?_, ?_, ?_, rfl, rfl⟩
  · intro h3 hle
    simp [readBinaryStringValue, h3, hle]
  · intro b1 r h2 hr hle
    subst hr
    simp [readBinaryStringValue, h2, beVal] at hle ⊢
    exact hle
  · intro b1 b2 b3 r h1 hr hle
    subst hr
    simp [readBinaryStringValue, h1, beVal] at hle ⊢
    exact hle
  · intro b1 b2 b3 b4 b5 b6 b7 r h0 hr hle
    subst hr
    simp [readBinaryStringValue, h0, beVal] at hle ⊢
    exact hle
/-- C1 witness: the amended theorem applied to the one-byte-header
example `0xC3 'a' 'b' 'c'`. -/
theorem claim_C1_witness :
    readBinaryStringValue [0xC3, 97, 98, 99] = some ([97, 98, 99], []) := by
  have h := (claim_C1 0xC3 [97, 98, 99]).1 (by decide) (by decide)
  rw [h]
  decide

/-! ### C2: ghost-level conversion -/

/-- C2: for a field array read under the point or cell scope of a
pre-version-4 file that is unsigned 8-bit with exactly one component
and named `"vtkGhostLevels"`, every nonzero byte becomes the scope's
duplicate marker and every zero byte stays zero, and the array is
renamed to the canonical ghost name; an array failing any of these
conditions is left unchanged. -/
theorem claim_C2 (v : Int) (ft : FieldType) (arr : FieldArray) :
    ((v < 4 ∧ arr.kind = ArrKind.u8 ∧ arr.numComp = 1 ∧
        (ft = FieldType.cellData ∨ ft = FieldType.pointData) ∧
        arr.name = "vtkGhostLevels") →
      (convertGhostLevelsToGhostType v ft arr).name = ghostArrayName ∧
      (convertGhostLevelsToGhostType v ft arr).kind = arr.kind ∧
      (convertGhostLevelsToGhostType v ft arr).numComp = arr.numComp ∧
      (convertGhostLevelsToGhostType v ft arr).values =
        arr.values.map (fun g =>
          if 0 < g then
            (if ft = FieldType.cellData then duplicateCellMarker
             else duplicatePointMarker)
          else g)) ∧
    (¬ (v < 4 ∧ arr.kind = ArrKind.u8 ∧ arr.numComp = 1 ∧
        (ft = FieldType.cellData ∨ ft = FieldType.pointData) ∧
        arr.name = "vtkGhostLevels") →
      convertGhostLevelsToGhostType v ft arr = arr) := by
  constructor
  · intro hc
    simp [convertGhostLevelsToGhostType, if_pos hc]
  · intro hc
    simp only [convertGhostLevelsToGhostType, if_neg hc]

/-- C2 witness: the specification's scenario 6 — file version 3.0,
point scope, u8×1 array named `vtkGhostLevels` with bytes
`[0, 1, 2, 0]` — becomes the canonical ghost array with bytes
`[0, DUPLICATEPOINT, DUPLICATEPOINT, 0]`. -/
theorem claim_C2_witness :
    (convertGhostLevelsToGhostType 3 FieldType.pointData
      ⟨"vtkGhostLevels", ArrKind.u8, 1, [0, 1, 2, 0]⟩).name = ghostArrayName ∧
    (convertGhostLevelsToGhostType 3 FieldType.pointData
      ⟨"vtkGhostLevels", ArrKind.u8, 1, [0, 1, 2, 0]⟩).values =
      [0, duplicatePointMarker, duplicatePointMarker, 0] := by
  have h := (claim_C2 3 FieldType.pointData
    ⟨"vtkGhostLevels", ArrKind.u8, 1, [0, 1, 2, 0]⟩).1
    (by refine ⟨by decide, rfl, rfl, Or.inr rfl, rfl⟩)
  refine ⟨h.1, ?_⟩
  rw [h.2.2.2]
  decide
/-! ### C4: color scalars -/

theorem consumeLineFuel_append : ∀ (k : Nat) (line rest : B), line.length ≤ k →
    (10 : Nat) ∉ line → consumeLineFuel k (line ++ 10 :: rest) = some rest := by
  intro k line
  induction line generalizing k with
  | nil =>
    intro rest _ _
    cases k <;> simp [consumeLineFuel]
  | cons b t ih =>
    intro rest hk hmem
    have hb : ¬ b = 10 := by
      intro hb
      exact hmem (by simp [hb])
    have ht : (10 : Nat) ∉ t := by
      intro hmt
      exact hmem (List.mem_cons_of_mem b hmt)
    match k with
    | 0 => simp at hk
    | k + 1 =>
      simp only [List.cons_append, consumeLineFuel, if_neg hb]
      exact ih k rest (by simp at hk; omega) ht

theorem consumeLineB_append (line rest : B) (h255 : line.length ≤ 255)
    (hnl : (10 : Nat) ∉ line) :
    consumeLineB (line ++ 10 :: rest) = some rest :=
  consumeLineFuel_append 255 line rest h255 hnl

theorem readU8ArrayBin_append (numTuples numComp : Nat) (line rest : B)
    (h255 : line.length ≤ 255) (hnl : (10 : Nat) ∉ line)
    (hpos : 0 < numTuples * numComp) (hle : numTuples * numComp ≤ rest.length) :
    readU8ArrayBin numTuples numComp (line ++ 10 :: rest) =
      some (rest.take (numTuples * numComp), rest.drop (numTuples * numComp)) := by
  have hN : ¬ (numTuples = 0 ∨ numComp = 0) := by
    rintro (h | h) <;> simp [h] at hpos
  rw [readU8ArrayBin, if_neg hN, consumeLineB_append line rest h255 hnl]
  simp [hle]

/-- C4: a COLOR_SCALARS section with decoded name `name` and component
count K over N elements: in BINARY the payload after the preamble
newline is exactly N·K raw unsigned bytes; in ASCII N·K floats in [0,1]
are consumed and quantised per value to the byte `round(v·255)`
(`(unsigned char)(255.0·v + 0.5)`); in both encodings the array that
is materialised — Scalars slot when not skipped, extra array when
skipped with read-all on, nothing otherwise — is of unsigned 8-bit
kind. -/
theorem claim_C4 (sn : Option String) (rall : Bool) (st : CoState)
    (rawName : String) (numPts numComp : Nat) :
    (∀ line rest, line.length ≤ 255 → (10 : Nat) ∉ line →
      0 < numPts * numComp → numPts * numComp ≤ rest.length →
      (readCoScalarDataBin sn rall st rawName numPts numComp
          (line ++ 10 :: rest)).2 = rest.drop (numPts * numComp) ∧
      (coSkip sn st (decodeString rawName) = false →
        (readCoScalarDataBin sn rall st rawName numPts numComp
          (line ++ 10 :: rest)).1 = some (⟨some (decodeString rawName,
            StoredArr.u8 (rest.take (numPts * numComp))), st.extras⟩ : CoState)) ∧
      (coSkip sn st (decodeString rawName) = true → rall = true →
        (readCoScalarDataBin sn rall st rawName numPts numComp
          (line ++ 10 :: rest)).1 = some (⟨st.scalars, st.extras ++
            [(decodeString rawName, StoredArr.u8
              (rest.take (numPts * numComp)))]⟩ : CoState)) ∧
      (coSkip sn st (decodeString rawName) = true → rall = false →
        (readCoScalarDataBin sn rall st rawName numPts numComp
          (line ++ 10 :: rest)).1 = some st)) ∧
    (∀ vals : List ℚ, numPts * numComp ≤ vals.length →
      (readCoScalarDataAscii sn rall st rawName numPts numComp vals).2 =
        vals.drop (numPts * numComp) ∧
      (coSkip sn st (decodeString rawName) = false →
        (readCoScalarDataAscii sn rall st rawName numPts numComp vals).1 =
          some (⟨some (decodeString rawName, StoredArr.u8
            ((vals.take (numPts * numComp)).map quantizeCo)), st.extras⟩ :
              CoState)) ∧
      (coSkip sn st (decodeString rawName) = true → rall = true →
        (readCoScalarDataAscii sn rall st rawName numPts numComp vals).1 =
          some (⟨st.scalars, st.extras ++ [(decodeString rawName, StoredArr.u8
            ((vals.take (numPts * numComp)).map quantizeCo))]⟩ : CoState)) ∧
      (coSkip sn st (decodeString rawName) = true → rall = false →
        (readCoScalarDataAscii sn rall st rawName numPts numComp vals).1 =
          some st)) ∧
    (∀ v : ℚ, 0 ≤ v → v ≤ 1 →
      (quantizeCo v : Int) = round (255 * v) ∧ quantizeCo v ≤ 255) := by
  refine ⟨?_, ?_, ?_⟩
  · intro line rest h255 hnl hpos hle
    have hread := readU8ArrayBin_append numPts numComp line rest h255 hnl hpos hle
    rw [readCoScalarDataBin, hread]
    rcases hskip : coSkip sn st (decodeString rawName) with _ | _
    · simp
    · rcases rall with _ | _ <;> simp
  · intro vals hle
    rw [readCoScalarDataAscii]
    rcases hskip : coSkip sn st (decodeString rawName) with _ | _
    · simp [hle]
    · rcases rall with _ | _ <;> simp [hle]
  · intro v h0 h1
    constructor
    · have hnn : (0 : Int) ≤ ⌊255 * v + 1 / 2⌋ := by
        rw [Int.le_floor]
        push_cast
        linarith
      rw [quantizeCo, Int.toNat_of_nonneg hnn, round_eq]
    · have hub : ⌊(255 : ℚ) * v + 1 / 2⌋ ≤ 255 := by
        have : (255 : ℚ) * v + 1 / 2 ≤ 511 / 2 := by linarith
        calc ⌊(255 : ℚ) * v + 1 / 2⌋ ≤ ⌊(511 / 2 : ℚ)⌋ := Int.floor_le_floor this
          _ = 255 := by norm_num [Int.floor_eq_iff]
      rw [quantizeCo]
      omega
/-- C4 witness: a binary color-scalar payload of two bytes `[7, 9]`
lands in the Scalars slot as an unsigned-8-bit array, and the ASCII
quantisation of `1/2` is `round(255/2)`. -/
theorem claim_C4_witness :
    (readCoScalarDataBin none false ⟨none, []⟩ "c" 2 1 ([] ++ 10 :: [7, 9])).1 =
      some (⟨some ("c", StoredArr.u8 [7, 9]), []⟩ : CoState) ∧
    (quantizeCo (1 / 2) : Int) = round ((255 : ℚ) * (1 / 2)) := by
  have h := claim_C4 none false ⟨none, []⟩ "c" 2 1
  have hb := (h.1 [] [7, 9] (by decide) (by decide) (by decide) (by decide)).2.1
    (by decide)
  constructor
  · rw [hb]
    decide
  · exact (h.2.2 (1 / 2) (by norm_num) (by norm_num)).1
/-! ### C5: element counts and binary payload widths -/

theorem readStringsB_count : ∀ (n : Nat) (s : B) (c : Nat) (r : B),
    readStringsB n s = some (c, r) → c = n := by
  intro n
  induction n with
  | zero =>
    intro s c r h
    simp [readStringsB] at h
    omega
  | succ n ih =>
    intro s c r h
    rw [readStringsB] at h
    cases hv : readBinaryStringValue s with
    | none =>
      rw [hv] at h
      simp at h
    | some p =>
      obtain ⟨v, s1⟩ := p
      rw [hv] at h
      dsimp only at h
      cases hrec : readStringsB n s1 with
      | none =>
        rw [hrec] at h
        simp at h
      | some q =>
        obtain ⟨c', s2⟩ := q
        rw [hrec] at h
        dsimp only at h
        injection h with h
        injection h with h1 h2
        have := ih s1 c' s2 hrec
        omega

theorem vtkReadASCIIVals_spec {V : Type} : ∀ (n : Nat) (vs : List V) (c : Nat)
    (r : List V), vtkReadASCIIVals n vs = some (c, r) →
    c = n ∧ r = vs.drop n := by
  intro n
  induction n with
  | zero =>
    intro vs c r h
    simp [vtkReadASCIIVals] at h
    exact ⟨h.1.symm, h.2.symm⟩
  | succ n ih =>
    intro vs c r h
    cases vs with
    | nil => cases h
    | cons v vs =>
      rw [vtkReadASCIIVals] at h
      cases hrec : vtkReadASCIIVals n vs with
      | none =>
        rw [hrec] at h
        simp at h
      | some q =>
        obtain ⟨c', r'⟩ := q
        rw [hrec] at h
        dsimp only at h
        injection h with h
        injection h with h1 h2
        obtain ⟨hc, hr⟩ := ih vs c' r' hrec
        subst h1
        subst h2
        simp [hc, hr]

theorem vtkReadBinaryDataConsume_append (sz numTuples numComp : Nat)
    (line rest : B) (h255 : line.length ≤ 255) (hnl : (10 : Nat) ∉ line)
    (hpos : 0 < numTuples * numComp)
    (hle : sz * numTuples * numComp ≤ rest.length) :
    vtkReadBinaryDataConsume sz numTuples numComp (line ++ 10 :: rest) =
      some (rest.drop (sz * numTuples * numComp)) := by
  have hN : ¬ (numTuples = 0 ∨ numComp = 0) := by
    rintro (h | h) <;> simp [h] at hpos
  rw [vtkReadBinaryDataConsume, if_neg hN,
    consumeLineB_append line rest h255 hnl]
  simp [hle]

/-- C5: for every recognised type tag with tuple count N and component
count K ≥ 1: any successful binary payload read yields exactly N·K
logical values; for each fixed-width kind the payload after the single
preamble newline is exactly `size(T)·N·K` bytes; for the bit kind it is
exactly `⌈(N·K)/8⌉` bytes; and the ASCII value loops likewise consume
and produce exactly N·K values on success. -/
theorem claim_C5 (tag : String) (ty : VtkTy) (numTuples numComp : Nat)
    (hrec : recognizeType tag = some ty) (_hk : 1 ≤ numComp) :
    (∀ s c r, readArrayBinCount ty numTuples numComp s = some (c, r) →
      c = numTuples * numComp) ∧
    (∀ sz, elemSize ty = some sz → ∀ line rest, line.length ≤ 255 →
      (10 : Nat) ∉ line → 0 < numTuples * numComp →
      sz * numTuples * numComp ≤ rest.length →
      readArrayBinCount ty numTuples numComp (line ++ 10 :: rest) =
        some (numTuples * numComp,
          rest.drop (sz * numTuples * numComp))) ∧
    (ty = VtkTy.bit → ∀ line rest, line.length ≤ 255 → (10 : Nat) ∉ line →
      0 < numTuples * numComp →
      (numTuples * numComp + 7) / 8 ≤ rest.length →
      readArrayBinCount ty numTuples numComp (line ++ 10 :: rest) =
        some (numTuples * numComp,
          rest.drop ((numTuples * numComp + 7) / 8))) ∧
    (∀ (V : Type) (vs : List V) c r,
      vtkReadASCIIVals (numTuples * numComp) vs = some (c, r) →
      c = numTuples * numComp ∧ r = vs.drop (numTuples * numComp)) := by
  refine ⟨?_, ?_, ?_, ?_⟩
  · intro s c r h
    cases ty with
    | bit =>
      simp only [readArrayBinCount, elemSize] at h
      by_cases h0 : numTuples = 0 ∨ numComp = 0
      · rw [if_pos h0] at h
        injection h with h
        injection h with h1 h2
        omega
      · rw [if_neg h0] at h
        cases hcl : consumeLineB s with
        | none =>
          rw [hcl] at h
          cases h
        | some s1 =>
          rw [hcl] at h
          dsimp only at h
          by_cases hb : (numTuples * numComp + 7) / 8 ≤ s1.length
          · rw [if_pos hb] at h
            injection h with h
            injection h with h1 h2
            omega
          · rw [if_neg hb] at h
            cases h
    | strTy =>
      simp only [readArrayBinCount, elemSize] at h
      cases hcl : consumeLineB s with
      | none =>
        rw [hcl] at h
        cases h
      | some s1 =>
        rw [hcl] at h
        dsimp only at h
        exact readStringsB_count _ s1 c r h
    | variant => simp [readArrayBinCount, elemSize] at h
    | i8 => simp only [readArrayBinCount, elemSize, Option.map_eq_some'] at h
            obtain ⟨s', _, hp⟩ := h
            injection hp with h1 h2
            omega
    | u8 => simp only [readArrayBinCount, elemSize, Option.map_eq_some'] at h
            obtain ⟨s', _, hp⟩ := h
            injection hp with h1 h2
            omega
    | i16 => simp only [readArrayBinCount, elemSize, Option.map_eq_some'] at h
             obtain ⟨s', _, hp⟩ := h
             injection hp with h1 h2
             omega
    | u16 => simp only [readArrayBinCount, elemSize, Option.map_eq_some'] at h
             obtain ⟨s', _, hp⟩ := h
             injection hp with h1 h2
             omega
    | idt => simp only [readArrayBinCount, elemSize, Option.map_eq_some'] at h
             obtain ⟨s', _, hp⟩ := h
             injection hp with h1 h2
             omega
    | i32 => simp only [readArrayBinCount, elemSize, Option.map_eq_some'] at h
             obtain ⟨s', _, hp⟩ := h
             injection hp with h1 h2
             omega
    | u32 => simp only [readArrayBinCount, elemSize, Option.map_eq_some'] at h
             obtain ⟨s', _, hp⟩ := h
             injection hp with h1 h2
             omega
    | lng => simp only [readArrayBinCount, elemSize, Option.map_eq_some'] at h
             obtain ⟨s', _, hp⟩ := h
             injection hp with h1 h2
             omega
    | ulng => simp only [readArrayBinCount, elemSize, Option.map_eq_some'] at h
              obtain ⟨s', _, hp⟩ := h
              injection hp with h1 h2
              omega
    | i64 => simp only [readArrayBinCount, elemSize, Option.map_eq_some'] at h
             obtain ⟨s', _, hp⟩ := h
             injection hp with h1 h2
             omega
    | u64 => simp only [readArrayBinCount, elemSize, Option.map_eq_some'] at h
             obtain ⟨s', _, hp⟩ := h
             injection hp with h1 h2
             omega
    | f32 => simp only [readArrayBinCount, elemSize, Option.map_eq_some'] at h
             obtain ⟨s', _, hp⟩ := h
             injection hp with h1 h2
             omega
    | f64 => simp only [readArrayBinCount, elemSize, Option.map_eq_some'] at h
             obtain ⟨s', _, hp⟩ := h
             injection hp with h1 h2
             omega
  · intro sz hsz line rest h255 hnl hpos hle
    have hcons := vtkReadBinaryDataConsume_append sz numTuples numComp line rest
      h255 hnl hpos hle
    simp only [readArrayBinCount]
    rw [hsz]
    dsimp only
    rw [hcons]
    rfl
  · intro hty line rest h255 hnl hpos hle
    subst hty
    have hN : ¬ (numTuples = 0 ∨ numComp = 0) := by
      rintro (h | h) <;> simp [h] at hpos
    simp only [readArrayBinCount, elemSize]
    rw [if_neg hN, consumeLineB_append line rest h255 hnl]
    simp [hle]
  · intro V vs c r h
    exact vtkReadASCIIVals_spec (numTuples * numComp) vs c r h

/-- C5 witness: tag `"short"` (2-byte elements), N = 2 tuples, K = 3
components: the binary payload after the newline is 12 bytes and 6
values are produced. -/
theorem claim_C5_witness :
    readArrayBinCount VtkTy.i16 2 3
      ([] ++ 10 :: [1, 2, 3, 4, 5, 6, 7, 8, 9, 10, 11, 12]) =
      some (6, []) := by
  have h := (claim_C5 ("short") VtkTy.i16 2 3 (by decide) (by decide)).2.1 2
    (by decide) [] [1, 2, 3, 4, 5, 6, 7, 8, 9, 10, 11, 12]
    (by decide) (by decide) (by decide) (by decide)
  rw [h]
  decide
/-! ### C6 and C10: scalar-section filtering and noninterference -/

theorem readScalarData_stream {A : Type} (ra : String → Int → Int → S → Option A × S)
    (numPts : Int) (sn : Option String) (rall : Bool) (st : AttrStateS A) (s : S) :
    (readScalarData ra numPts sn rall st s).2 = scalarStreamAfter ra numPts s := by
  rw [readScalarData, scalarStreamAfter]
  rcases hp : parseScalarHeader s with ⟨o, s'⟩
  cases o with
  | none => rfl
  | some v =>
    obtain ⟨buffer, line, nc, tn⟩ := v
    dsimp only
    rcases hra : ra line numPts nc s' with ⟨oa, s2⟩
    cases oa with
    | none => rfl
    | some a =>
      dsimp only
      split_ifs <;> rfl

theorem readScalarData_ok {A : Type} (ra : String → Int → Int → S → Option A × S)
    (numPts : Int) (sn : Option String) (rall : Bool) (st : AttrStateS A) (s : S) :
    (readScalarData ra numPts sn rall st s).1.isSome = scalarReadOk ra numPts s := by
  rw [readScalarData, scalarReadOk]
  rcases hp : parseScalarHeader s with ⟨o, s'⟩
  cases o with
  | none => rfl
  | some v =>
    obtain ⟨buffer, line, nc, tn⟩ := v
    dsimp only
    rcases hra : ra line numPts nc s' with ⟨oa, s2⟩
    cases oa with
    | none => rfl
    | some a =>
      dsimp only
      split_ifs <;> rfl

theorem readLutData_stream (binMode : Bool) (ln sl : Option String) (sp : Bool)
    (s : S) : (readLutData binMode ln sl sp s).2 = lutStreamAfter binMode s := by
  rw [readLutData, lutStreamAfter]
  rcases h1 : readStringTokP s with ⟨o1, s1⟩
  cases o1 with
  | none => rfl
  | some name =>
    dsimp only
    rcases h2 : readIntP s1 with ⟨o2, s2⟩
    cases o2 with
    | none => rfl
    | some size =>
      dsimp only
      cases binMode with
      | false =>
        simp only [Bool.false_eq_true, if_false]
        rcases h3 : lutAsciiRows size.toNat s2 with ⟨o3, s3⟩
        cases o3 <;> rfl
      | true =>
        simp only [if_true]
        rcases h3 : readLineP s2 with ⟨o3, s3⟩
        cases o3 with
        | none => rfl
        | some _ =>
          dsimp only
          split_ifs <;> rfl

theorem readLutData_ok (binMode : Bool) (ln sl : Option String) (sp : Bool)
    (s : S) : (readLutData binMode ln sl sp s).1.isSome = lutReadOk binMode s := by
  rw [readLutData, lutReadOk]
  rcases h1 : readStringTokP s with ⟨o1, s1⟩
  cases o1 with
  | none => rfl
  | some name =>
    dsimp only
    rcases h2 : readIntP s1 with ⟨o2, s2⟩
    cases o2 with
    | none => rfl
    | some size =>
      dsimp only
      cases binMode with
      | false =>
        simp only [Bool.false_eq_true, if_false]
        rcases h3 : lutAsciiRows size.toNat s2 with ⟨o3, s3⟩
        cases o3 <;> rfl
      | true =>
        simp only [if_true]
        rcases h3 : readLineP s2 with ⟨o3, s3⟩
        cases o3 with
        | none => rfl
        | some _ =>
          dsimp only
          split_ifs with h <;> simp [h]

/-- C10: two runs of the scalar-section reader (and of the lookup-table
reader) that differ only in the name filters, the read-all toggle and
the prior occupancy of the Scalars slot consume exactly the same bytes
and return the same success/failure code: the configuration decides
only which container receives the parsed array.  The array reader `ra`
the section delegates to never reads that configuration in the source,
so it is one and the same function in both runs. -/
theorem claim_C10 {A : Type} (ra : String → Int → Int → S → Option A × S)
    (numPts : Int) (sn sn' : Option String) (rall rall' : Bool)
    (st st' : AttrStateS A) (s : S) (binMode : Bool)
    (ln ln' sl sl' : Option String) (sp sp' : Bool) (sL : S) :
    (readScalarData ra numPts sn rall st s).2 =
      (readScalarData ra numPts sn' rall' st' s).2 ∧
    (readScalarData ra numPts sn rall st s).1.isSome =
      (readScalarData ra numPts sn' rall' st' s).1.isSome ∧
    (readLutData binMode ln sl sp sL).2 = (readLutData binMode ln' sl' sp' sL).2 ∧
    (readLutData binMode ln sl sp sL).1.isSome =
      (readLutData binMode ln' sl' sp' sL).1.isSome := by
  refine ⟨?_, ?_, ?_, ?_⟩
  · rw [readScalarData_stream, readScalarData_stream]
  · rw [readScalarData_ok, readScalarData_ok]
  · rw [readLutData_stream, readLutData_stream]
  · rw [readLutData_ok, readLutData_ok]

/-- C6: when the SCALARS header parses and the array reader succeeds,
the parsed array (named with the percent-decoded section name) becomes
the Scalars slot exactly when the slot was empty and no differing name
filter is configured; otherwise the slot is untouched and the array is
appended as a named extra array if and only if the read-all-scalars
toggle is on, and is dropped otherwise. -/
theorem claim_C6 {A : Type} (ra : String → Int → Int → S → Option A × S)
    (numPts : Int) (sn : Option String) (rall : Bool) (st : AttrStateS A)
    (s : S) (buffer line : String) (numComp : Int) (tableName : String)
    (s' : S) (a : A) (s2 : S)
    (hh : parseScalarHeader s = (some (buffer, line, numComp, tableName), s'))
    (hra : ra line numPts numComp s' = (some a, s2)) :
    (readScalarData ra numPts sn rall st s).2 = s2 ∧
    ((st.scalars.isSome = true ∨
        (∃ nm, sn = some nm ∧ nm ≠ decodeString buffer)) →
      ∃ st1, (readScalarData ra numPts sn rall st s).1 = some st1 ∧
        st1.scalars = st.scalars ∧
        (rall = true → st1.extras = st.extras ++ [⟨decodeString buffer, a⟩]) ∧
        (rall = false → st1.extras = st.extras)) ∧
    (¬ (st.scalars.isSome = true ∨
        (∃ nm, sn = some nm ∧ nm ≠ decodeString buffer)) →
      (readScalarData ra numPts sn rall st s).1 =
        some ⟨some ⟨decodeString buffer, a⟩, st.extras, some tableName⟩) := by
  have hskip : skipScalarB sn st (decodeString buffer) = true ↔
      (st.scalars.isSome = true ∨
        (∃ nm, sn = some nm ∧ nm ≠ decodeString buffer)) := by
    cases sn with
    | none => simp [skipScalarB]
    | some nm => simp [skipScalarB, bne_iff_ne]
  rw [readScalarData, hh]
  dsimp only
  rw [hra]
  dsimp only
  rcases Bool.eq_false_or_eq_true (skipScalarB sn st (decodeString buffer))
    with hsk | hsk
  · rw [hsk]
    have hprop := hskip.mp hsk
    refine ⟨?_, ?_, ?_⟩
    · cases rall <;> simp
    · intro _
      cases rall with
      | false =>
        refine ⟨st, ?_, rfl, ?_, ?_⟩
        · simp
        · intro h
          exact nomatch h
        · intro _
          rfl
      | true =>
        refine ⟨⟨st.scalars, st.extras ++ [⟨decodeString buffer, a⟩],
          st.scalarLut⟩, ?_, rfl, ?_, ?_⟩
        · simp
        · intro _
          rfl
        · intro h
          exact nomatch h
    · intro hneg
      exact absurd hprop hneg
  · rw [hsk]
    refine ⟨?_, ?_, ?_⟩
    · simp
    · intro hprop
      exact absurd (hskip.mpr hprop) (by simp [hsk])
    · intro _
      simp
/-- C6 witness: with the Scalars slot already occupied and read-all on,
the section `temp float 1 LOOKUP_TABLE default` leaves the slot
untouched and lands as the named extra array `temp`. -/
theorem claim_C6_witness :
    ∃ st1, (readScalarData (fun _ _ _ s => (some (), s)) 2 none true
        ⟨some ⟨"old", ()⟩, [], none⟩
        (String.toList ("temp float 1 lookup_table default"))).1 = some st1 ∧
      st1.scalars = some ⟨"old", ()⟩ ∧
      st1.extras = [⟨"temp", ()⟩] := by
  have h := claim_C6 (fun _ _ _ s => (some (), s)) 2 none true
    ⟨some ⟨"old", ()⟩, [], none⟩
    (String.toList ("temp float 1 lookup_table default"))
    "temp" "float" 1 "default" [] () [] rfl rfl
  obtain ⟨st1, hst, hsc, hex, _⟩ := h.2.1 (Or.inl rfl)
  refine ⟨st1, hst, ?_, ?_⟩
  · rw [hsc]
  · rw [hex rfl]
    decide
/-! ### C7: field-data filtering is a hard failure -/

/-- C7 counterexample: with the field-data filter set to `foo` and
`ReadAllFields` off, the section `FIELD bar 0` is parsed to completion,
yet `ReadFieldData` returns null and the enclosing attribute keyword
loop treats that as a parse failure and aborts — the exclusion is not a
continue-with-the-next-keyword case as the claim asserts. -/
theorem claim_C7_counterexample :
    readFieldData (fun _ _ _ s => (none, s)) (some "foo") false 3
      FieldType.pointData (String.toList ("bar 0 ")) = (none, [' ']) ∧
    rowDataFieldCase (fun _ _ _ s => (none, s)) (some "foo") false 3
      FieldType.pointData [] (String.toList ("bar 0 ")) = (none, [' ']) := by
  constructor <;> rfl

/-- C7 (amended): arrays of a FIELD section are read and, unless the
field-name filter excludes the field with `ReadAllFields` off, inserted
(named with their percent-decoded names and run through the ghost
conversion); the toggle overrides the filter.  A field excluded with
the toggle off still has its arrays read but not inserted, and
`ReadFieldData` then returns null, which the enclosing attribute
keyword loop reports as a parse failure instead of continuing with the
next keyword. -/
theorem claim_C7 (ra : String → Int → Int → S → Option FieldArray × S)
    (fieldDataName : Option String) (readAllFields : Bool)
    (fileMajorVersion : Int) (ft : FieldType) (prev : List FieldArray)
    (s : S) (fname : String) (s1 : S) (buffer : String)
    (numComp numTuples : Int) (typeTok : String) (s3 s4 s5 s6 s7 s8 : S)
    (arr : FieldArray)
    (h1 : readStringTokP s = (some fname, s1))
    (h2 : readIntP s1 = (some 1, s3))
    (h3 : readStringTokP s3 = (some buffer, s4))
    (hnull : buffer ≠ "NULL_ARRAY")
    (h4 : readIntP s4 = (some numComp, s5))
    (h5 : readIntP s5 = (some numTuples, s6))
    (h6 : readStringTokP s6 = (some typeTok, s7))
    (hra : ra typeTok numTuples numComp s7 = (some arr, s8)) :
    ((skipFieldB fieldDataName fname = true ∧ readAllFields = false) →
      readFieldData ra fieldDataName readAllFields fileMajorVersion ft s =
        (none, s8) ∧
      rowDataFieldCase ra fieldDataName readAllFields fileMajorVersion ft
        prev s = (none, s8)) ∧
    ((skipFieldB fieldDataName fname = false ∨ readAllFields = true) →
      readFieldData ra fieldDataName readAllFields fileMajorVersion ft s =
        (some [convertGhostLevelsToGhostType fileMajorVersion ft
          { arr with name := decodeString buffer }], s8) ∧
      rowDataFieldCase ra fieldDataName readAllFields fileMajorVersion ft
        prev s =
        (some (prev ++ [convertGhostLevelsToGhostType fileMajorVersion ft
          { arr with name := decodeString buffer }]), s8)) := by
  have hfd : readFieldData ra fieldDataName readAllFields fileMajorVersion ft s =
      readFieldArrays ra (skipFieldB fieldDataName fname) readAllFields
        fileMajorVersion ft 1 [] s3 := by
    rw [readFieldData, h1]
    dsimp only
    rw [h2]
    dsimp only
    rfl
  have harr : readFieldArrays ra (skipFieldB fieldDataName fname) readAllFields
      fileMajorVersion ft 1 [] s3 =
      (if skipFieldB fieldDataName fname = true ∧ readAllFields = false
       then (none, s8)
       else (some (if skipFieldB fieldDataName fname = false ∨
            readAllFields = true then
          [convertGhostLevelsToGhostType fileMajorVersion ft
            { arr with name := decodeString buffer }]
          else []), s8)) := by
    rw [readFieldArrays, h3]
    dsimp only
    rw [if_neg hnull, h4]
    dsimp only
    rw [h5]
    dsimp only
    rw [h6]
    dsimp only
    rw [hra]
    dsimp only
    rw [readFieldArrays]
    rcases Bool.eq_false_or_eq_true (skipFieldB fieldDataName fname) with hs | hs
    · rw [hs]
      cases readAllFields <;> simp
    · rw [hs]
      cases readAllFields <;> simp
  constructor
  · rintro ⟨hskip, hall⟩
    have hres : readFieldData ra fieldDataName readAllFields fileMajorVersion
        ft s = (none, s8) := by
      rw [hfd, harr, if_pos ⟨hskip, hall⟩]
    refine ⟨hres, ?_⟩
    rw [rowDataFieldCase, hres]
  · intro hor
    have hcond : ¬ (skipFieldB fieldDataName fname = true ∧
        readAllFields = false) := by
      rintro ⟨hskip, hall⟩
      rcases hor with h | h
      · rw [hskip] at h
        cases h
      · rw [hall] at h
        cases h
    have hres : readFieldData ra fieldDataName readAllFields fileMajorVersion
        ft s = (some [convertGhostLevelsToGhostType fileMajorVersion ft
          { arr with name := decodeString buffer }], s8) := by
      rw [hfd, harr, if_neg hcond, if_pos hor]
    refine ⟨hres, ?_⟩
    rw [rowDataFieldCase, hres]
/-- C7 witness: an unfiltered single-array field section is read and
its array inserted under its decoded name. -/
theorem claim_C7_witness :
    readFieldData (fun _ _ _ s => (some ⟨"x", ArrKind.f32, 1, []⟩, s)) none
      false 3 FieldType.pointData (String.toList ("f 1 a 1 2 float x")) =
      (some [⟨"a", ArrKind.f32, 1, []⟩], String.toList (" x")) := by
  have h := (claim_C7 (fun _ _ _ s => (some ⟨"x", ArrKind.f32, 1, []⟩, s))
    none false 3 FieldType.pointData [] (String.toList ("f 1 a 1 2 float x"))
    "f" (String.toList (" 1 a 1 2 float x")) "a" 1 2 "float"
    (String.toList (" a 1 2 float x")) (String.toList (" 1 2 float x"))
    (String.toList (" 2 float x")) (String.toList (" float x"))
    (String.toList (" x")) (String.toList (" x")) ⟨"x", ArrKind.f32, 1, []⟩
    rfl rfl rfl (by decide) rfl rfl rfl rfl).2 (Or.inl rfl)
  rw [h.1]
  decide

/-! ### C9: string-vector information keys -/

/-- C9: once the `DATA` token, a positive length `L` and the trailing
newline have been consumed, the string-vector branch reads `L` lines,
percent-decodes each and appends them in order to the key's value; if
reading any of the `L` lines fails, the key is removed — no partially
filled string vector is ever left stored. -/
theorem claim_C9 (prev : Option (List String)) (s : S) (line : String)
    (s1 : S) (L : Int) (s2 : S)
    (h1 : readStringTokP s = (some line, s1))
    (h2 : startsWithS line ("DATA") = true)
    (h3 : readIntP s1 = (some L, s2))
    (hL : 0 < L) :
    (∀ lns rest, takeInfoLines L.toNat ((readLineP s2).2) = (some lns, rest) →
      readInfoStringVector prev s =
        (some (prev.getD [] ++ lns.map decodeString), rest)) ∧
    (∀ rest, takeInfoLines L.toNat ((readLineP s2).2) = (none, rest) →
      readInfoStringVector prev s = (none, rest)) := by
  have hL0 : ¬ L = 0 := by omega
  have hLn : ¬ L < 0 := by omega
  have hbase : readInfoStringVector prev s =
      (match takeInfoLines L.toNat ((readLineP s2).2) with
       | (none, s') => (none, s')
       | (some lns, s') => (some (prev.getD [] ++ lns.map decodeString), s')) := by
    rw [readInfoStringVector, h1]
    dsimp only
    rw [if_neg (by simp [h2]), h3]
    dsimp only
    rw [if_neg hL0, if_neg hLn]
  constructor
  · intro lns rest htake
    rw [hbase, htake]
  · intro rest htake
    rw [hbase, htake]

/-- C9 witness: `DATA 2` followed by only one line `foo`: the second
line read fails, and the key ends up removed (`none`) rather than
holding a partial `["foo"]`. -/
theorem claim_C9_witness :
    readInfoStringVector none (String.toList ("DATA 2\nfoo\n")) = (none, []) := by
  have h := (claim_C9 none (String.toList ("DATA 2\nfoo\n")) "DATA"
    (String.toList (" 2\nfoo\n")) 2 (String.toList ("\nfoo\n"))
    rfl rfl rfl (by decide)).2 [] rfl
  exact h
end VTK
